import Mathlib

/-
Shallow embedding of the Bot_Assignment conversational backend:
`src/Services/llm_service.py`, `src/Services/services.py`,
`src/Services/rag_service.py`, `src/Services/document_processor.py` and
`src/Db/models.py`, together with proofs about the context-window
manager, the retry loop, the chunker, the retrieval scorer and the
turn orchestration.
-/

namespace Bot

/-! ## Data model (`Db/models.py`) -/

/-- `MessageRole` enum from `models.py`. -/
inductive MessageRole where
  | USER
  | ASSISTANT
  | SYSTEM
deriving DecidableEq, Repr

/-- The enum's string value (`MessageRole.USER.value = "USER"`). -/
def MessageRole.value : MessageRole → String
  | .USER => "USER"
  | .ASSISTANT => "ASSISTANT"
  | .SYSTEM => "SYSTEM"

/-- `role.value.lower()` as computed in `format_messages_for_llm`. -/
def MessageRole.valueLower : MessageRole → String
  | .USER => "user"
  | .ASSISTANT => "assistant"
  | .SYSTEM => "system"

/-- `ConversationMode` enum from `models.py`. -/
inductive ConversationMode where
  | OPEN_CHAT
  | RAG_CHAT
deriving DecidableEq, Repr

/-- A `messages` row: the fields that the services read or write
(identifiers and timestamps carry no behavior and are omitted). -/
structure Message where
  sequence_number : Nat
  role : MessageRole
  content : String
  llm_model : Option String := none
deriving DecidableEq, Repr

/-- A `document_chunks` row as read by `retrieve_context_for_query`:
the embedding is stored as a serialized string (`str(embedding.tolist())`). -/
structure DocumentChunk where
  document_id : String
  content : String
  embedding : String
deriving DecidableEq, Repr

/-! ## `llm_service.py` -/

def LLM_MODEL : String := "llama-3.1-8b-instant"

def MAX_MODEL_TOKENS : Nat := 32768

/-- `CONTEXT_LIMIT = int(MAX_MODEL_TOKENS * SAFETY_THRESHOLD)` with
`SAFETY_THRESHOLD = 0.8`; `32768 * 0.8 = 26214.4` truncates to `26214`,
which integer arithmetic `32768 * 8 / 10` reproduces exactly. -/
def CONTEXT_LIMIT : Nat := MAX_MODEL_TOKENS * 8 / 10

def SYSTEM_PROMPT : String :=
  "You are BOT GPT, a helpful and concise enterprise conversational assistant. " ++
  "Your goal is to answer user queries based on conversation history and provided documents. " ++
  "Be professional and brief."

/-- `count_tokens`: `len(text) // 4` (the `if not text: return 0` guard
agrees with `0 // 4 = 0`). -/
def count_tokens (text : String) : Nat := text.length / 4

/-- Python truthiness of an `Optional[str]` argument (`if rag_context:`):
`None` and the empty string are falsy. -/
def strTruthy : Option String → Bool
  | none => false
  | some s => !(s == "")

/-- Step 1 of `manage_context_window`: base token usage of the system
prompt plus the RAG context when present. -/
def base_tokens (rag_context : Option String) : Nat :=
  count_tokens SYSTEM_PROMPT +
    (if strTruthy rag_context then count_tokens (rag_context.getD "") else 0)

/-- The backward walk of `manage_context_window` over the reversed history
(newest message first): accept a message while the running total stays
within the budget, and stop at the first message that does not fit. -/
def windowAccept (budget : Nat) (current_tokens : Nat) : List Message → List Message
  | [] => []
  | message :: rest =>
    let message_tokens := count_tokens message.content
    if current_tokens + message_tokens ≤ budget then
      message :: windowAccept budget (current_tokens + message_tokens) rest
    else
      []

/-- `manage_context_window`, generalized over the budget constant: walk the
history newest-to-oldest (`reversed(conversation_history)`), prepending each
accepted message (`insert(0, message)`), which the reversal of the accepted
newest-first walk reproduces. -/
def manage_context_window_at (budget : Nat) (conversation_history : List Message)
    (rag_context : Option String) : List Message :=
  (windowAccept budget (base_tokens rag_context) conversation_history.reverse).reverse

/-- `manage_context_window` from `llm_service.py` (budget = `CONTEXT_LIMIT`). -/
def manage_context_window (conversation_history : List Message)
    (rag_context : Option String) : List Message :=
  manage_context_window_at CONTEXT_LIMIT conversation_history rag_context

/-- The system prompt sent to the model, prefixed by the RAG context block
when one is present (`format_messages_for_llm`). -/
def full_system_prompt (rag_context : Option String) : String :=
  if strTruthy rag_context then
    "RAG CONTEXT:\n---\n" ++ rag_context.getD "" ++ "\n---\n\n" ++ SYSTEM_PROMPT
  else
    SYSTEM_PROMPT

/-- `format_messages_for_llm`: the role-tagged payload, system message
first, then the history as `(role.value.lower(), content)` pairs. -/
def format_messages_for_llm (conversation_history : List Message)
    (rag_context : Option String) : List (String × String) :=
  ("system", full_system_prompt rag_context) ::
    conversation_history.map (fun m => (m.role.valueLower, m.content))

/-- The outcome of one attempt at `client.chat.completions.create`:
a successful response carrying content and reported token usage, a
response with an empty `choices` list (which the source turns into a
generic `Exception`), a `groq.APIError` carrying its `status_code`, or
any other exception.  `except APIError` matches every `APIError`
subclass, so rate limits (429) and also auth (401) or malformed-request
(400/422) errors all arrive as `apiError` — the source's handler comment
itself says "e.g., Rate Limits, Invalid Key" — while `otherError` is the
`except Exception` branch (network/client issues). -/
inductive AttemptOutcome where
  | success (content : String) (total_tokens : Nat)
  | emptyChoices
  | apiError (status_code : Nat)
  | otherError
deriving DecidableEq, Repr

/-- The result of `call_llm_api`: the returned dict, or an
`HTTPException` with its status code and detail string. -/
inductive CallResult where
  | ok (content : String) (model : String) (token_usage : Nat)
  | httpError (status_code : Nat) (detail : String)
deriving DecidableEq, Repr

/-- The observable trace of the retry loop: its result, the backoff
sleeps it performed (in seconds), and how many attempts it made. -/
structure CallTrace where
  result : CallResult
  sleeps : List Nat
  attemptsMade : Nat
deriving DecidableEq, Repr

def MAX_RETRIES : Nat := 3

/-- The `for attempt in range(MAX_RETRIES)` loop of `call_llm_api`.
`attempt` is the loop index and `remaining + 1` the number of iterations
left, so that under the invariant `attempt + remaining + 1 = MAX_RETRIES`
the source's guard `attempt < MAX_RETRIES - 1` is `remaining > 0`.
On `APIError` with iterations left it sleeps `2 ** attempt` seconds and
retries; on the last iteration it raises 503; any other exception
(including the empty-`choices` one) raises 503 immediately. -/
def run_attempts (api : Nat → AttemptOutcome) : Nat → Nat → CallTrace
  | _, 0 => ⟨.httpError 503 "LLM service failed after all retries.", [], 0⟩
  | attempt, remaining + 1 =>
    match api attempt with
    | .success content total_tokens => ⟨.ok content LLM_MODEL total_tokens, [], 1⟩
    | .apiError _ =>
      if remaining > 0 then
        let tr := run_attempts api (attempt + 1) remaining
        ⟨tr.result, 2 ^ attempt :: tr.sleeps, tr.attemptsMade + 1⟩
      else
        ⟨.httpError 503 "External Groq service is unavailable after multiple retries.", [], 1⟩
    | .emptyChoices =>
      ⟨.httpError 503 "External Groq service failed due to an unknown error.", [], 1⟩
    | .otherError =>
      ⟨.httpError 503 "External Groq service failed due to an unknown error.", [], 1⟩

/-- `call_llm_api`: window the history, format the payload, run the retry
loop.  The external provider is abstracted as a map from the attempt index
to that attempt's outcome; the payload actually sent is returned alongside
the loop's trace. -/
def call_llm_api (api : Nat → AttemptOutcome) (conversation_history : List Message)
    (rag_context : Option String) : List (String × String) × CallTrace :=
  let processed_history := manage_context_window conversation_history rag_context
  let messages_payload := format_messages_for_llm processed_history rag_context
  (messages_payload, run_attempts api 0 MAX_RETRIES)

/-! ## `rag_service.py` -/

/-- External capabilities and database rows that
`retrieve_context_for_query` reads: `ast.literal_eval` applied to a stored
embedding string (`none` models a `ValueError`/`SyntaxError`/`TypeError`),
the sentence-transformer encoder, cosine similarity (scores abstracted
over ℚ), the `conversation_document_link` rows of the conversation, and
the `document_chunks` table. -/
structure RagEnv where
  literal_eval : String → Option (List ℚ)
  encode : String → List ℚ
  cos_sim : List ℚ → List ℚ → ℚ
  links : List String
  chunksDb : List DocumentChunk

/-- One step of Python's stable sort with `reverse=True`, inserting an
element that precedes the already-sorted rest of the scan: it goes in
front of the first element whose score is not greater, so earlier
candidates stay ahead of equal-scored later ones. -/
def insertDesc (x : ℚ × String) : List (ℚ × String) → List (ℚ × String)
  | [] => [x]
  | y :: ys => if x.1 ≥ y.1 then x :: y :: ys else y :: insertDesc x ys

/-- `scored.sort(key=lambda x: x[0], reverse=True)`: a stable sort by
descending score (Python's `list.sort` is stable, also under `reverse`). -/
def sortByScoreDesc (l : List (ℚ × String)) : List (ℚ × String) :=
  l.foldr insertDesc []

/-- Step 2 of `retrieve_context_for_query`: the chunks belonging to the
conversation's linked documents
(`DocumentChunk.document_id.in_(document_ids)`). -/
def chunksOf (env : RagEnv) : List DocumentChunk :=
  env.chunksDb.filter (fun c => env.links.contains c.document_id)

/-- Step 3 of `retrieve_context_for_query`: score each chunk whose stored
embedding parses against the query embedding, in scan order, skipping
chunks whose embedding fails to parse (`continue`).  The source encodes
the query once before the loop; `env.encode` is pure, so evaluating it
per chunk is the same value. -/
def scoredOf (env : RagEnv) (user_query : String) : List (ℚ × String) :=
  (chunksOf env).filterMap (fun chunk =>
    (env.literal_eval chunk.embedding).map
      (fun v => (env.cos_sim (env.encode user_query) v, chunk.content)))

/-- Steps 4-5 of `retrieve_context_for_query`: stable sort by descending
score, top 5, contents joined with `"\n\n"`. -/
def joinedContext (env : RagEnv) (user_query : String) : String :=
  String.intercalate "\n\n"
    (((sortByScoreDesc (scoredOf env user_query)).take 5).map Prod.snd)

/-- `retrieve_context_for_query` from `rag_service.py`: `None` without
links or without chunks, otherwise the joined top-5 context, normalized
to `None` when it strips to nothing (`context if context.strip() else
None`; a string strips to empty exactly when all its characters are
whitespace). -/
def retrieve_context_for_query (env : RagEnv) (user_query : String) : Option String :=
  if env.links.isEmpty then none
  else if (chunksOf env).isEmpty then none
  else if (joinedContext env user_query).data.all Char.isWhitespace then none
  else some (joinedContext env user_query)

/-! ## `services.py` -/

/-- `_get_next_sequence_number`: the maximum existing sequence number plus
one, or `1` for an empty conversation.  The source reads the maximum via
an `ORDER BY sequence_number DESC` query; over `Nat` a max-fold with base
`0` yields the same value (`max + 1` when messages exist, `0 + 1 = 1`
otherwise). -/
def _get_next_sequence_number (messages : List Message) : Nat :=
  (messages.foldr (fun m acc => max m.sequence_number acc) 0) + 1

/-- `add_user_message`: append a user message carrying the next sequence
number (the source commits it to the database immediately). -/
def add_user_message (messages : List Message) (content : String) : List Message :=
  messages ++ [{ sequence_number := _get_next_sequence_number messages,
                 role := .USER, content := content }]

/-- A `conversations` row as the orchestrator reads and writes it. -/
structure Conversation where
  mode : ConversationMode
  messages : List Message
  token_count : Nat
deriving Repr

/-- The observable outcome of one call to
`process_user_message_and_get_reply`: the conversation state afterwards,
the payload sent to the model, the returned assistant message (or `none`
when an `HTTPException` propagated, whose status code is recorded), and
the backoff sleeps performed. -/
structure TurnOutcome where
  conversation : Conversation
  payload : List (String × String)
  reply : Option Message
  http_status : Option Nat
  sleeps : List Nat
deriving Repr

/-- `process_user_message_and_get_reply` from `services.py` for an
existing conversation: persist the user message, overwrite the
`rag_context` parameter with `None` and recompute it for grounded
conversations, call the model on the full history, and on success append
the assistant reply and add the reported usage to the token count; an
`HTTPException` from the model call propagates, leaving the committed
user message in place. -/
def process_user_message_and_get_reply (env : RagEnv) (api : Nat → AttemptOutcome)
    (conversation : Conversation) (user_message_content : String)
    (rag_context : Option String) : TurnOutcome :=
  -- Step 2: save the user message (committed by `add_user_message`).
  let messages1 := add_user_message conversation.messages user_message_content
  let conv1 : Conversation := { conversation with messages := messages1 }
  -- Step 3: `rag_context = None`, then retrieval for RAG_CHAT conversations.
  let rag_context := (none : Option String)
  let rag_context :=
    if conversation.mode = .RAG_CHAT then
      retrieve_context_for_query env user_message_content
    else rag_context
  -- Steps 4-5: full history (including the new user turn) to the model.
  let sent := call_llm_api api messages1 rag_context
  match sent.2.result with
  | .ok content model token_usage =>
    -- Steps 6-7: append the assistant reply, update the token count.
    let assistant : Message :=
      { sequence_number := _get_next_sequence_number messages1,
        role := .ASSISTANT, content := content, llm_model := some model }
    { conversation :=
        { conv1 with
          messages := messages1 ++ [assistant],
          token_count := conv1.token_count + token_usage },
      payload := sent.1, reply := some assistant, http_status := none,
      sleeps := sent.2.sleeps }
  | .httpError code _ =>
    { conversation := conv1, payload := sent.1, reply := none,
      http_status := some code, sleeps := sent.2.sleeps }

/-! ## `document_processor.py` -/

/-- The `while i < len(text)` loop of `_chunk_text`, with explicit fuel:
append `text[i:i+chunk_size]`, advance `i` by `chunk_size - chunk_overlap`
(truncated at 0 over `Nat`), and break once the slice end reached the text
length.  `none` means the fuel ran out before the loop finished. -/
def chunk_go (text : List Char) (chunk_size chunk_overlap : Nat) (i : Nat) :
    Nat → Option (List (List Char))
  | 0 => none
  | fuel + 1 =>
    if i < text.length then
      let c := (text.drop i).take chunk_size
      if text.length ≤ i + chunk_size then
        some [c]
      else
        match chunk_go text chunk_size chunk_overlap (i + (chunk_size - chunk_overlap)) fuel with
        | none => none
        | some rest => some (c :: rest)
    else
      some []

/-- `_chunk_text(text, chunk_size=512, chunk_overlap=50)`.  Fuel
`text.length + 1` suffices for every terminating configuration: each
iteration either breaks or advances `i` by at least one whenever
`chunk_size > chunk_overlap`.  A `none` result therefore means the
source's loop diverges on that input. -/
def _chunk_text (text : List Char) (chunk_size : Nat := 512) (chunk_overlap : Nat := 50) :
    Option (List (List Char)) :=
  chunk_go text chunk_size chunk_overlap 0 (text.length + 1)

/-- The chunk sequence from offset `i` for the default, terminating
configuration (`chunk_size = 512 > 50 = chunk_overlap`, advance 462),
defined by well-founded recursion on the remaining length; used as the
reference value of `chunk_go`'s fueled computation. -/
def chunksFrom (text : List Char) (i : Nat) : List (List Char) :=
  if h : i < text.length then
    if text.length ≤ i + 512 then
      [(text.drop i).take 512]
    else
      (text.drop i).take 512 :: chunksFrom text (i + 462)
  else
    []
termination_by text.length - i
decreasing_by
  simp_wf
  omega

/-- Cumulative estimated token cost of a list of messages. -/
def msgCost (l : List Message) : Nat :=
  (l.map (fun m => count_tokens m.content)).sum

/-- A concrete two-chunk retrieval environment whose candidates tie on
score: both embeddings parse, similarity is constant, and both chunks
belong to the single linked document. -/
def tieEnv : RagEnv where
  literal_eval := fun _ => some [1]
  encode := fun _ => [1]
  cos_sim := fun _ _ => 0
  links := ["doc1"]
  chunksDb := [⟨"doc1", "a", "[1.0]"⟩, ⟨"doc1", "b", "[1.0]"⟩]

/-! ## Lemmas about the context window manager -/

theorem windowAccept_prefix (budget : Nat) :
    ∀ (rev : List Message) (cur : Nat), windowAccept budget cur rev <+: rev := by
  intro rev
  induction rev with
  | nil => intro cur; simp [windowAccept]
  | cons m rest ih =>
    intro cur
    simp only [windowAccept]
    split
    · exact List.cons_prefix_cons.mpr ⟨rfl, ih _⟩
    · exact List.nil_prefix

theorem windowAccept_fits (budget : Nat) :
    ∀ (rev : List Message) (cur : Nat),
      windowAccept budget cur rev = [] ∨
        cur + msgCost (windowAccept budget cur rev) ≤ budget := by
  intro rev
  induction rev with
  | nil => intro cur; left; rfl
  | cons m rest ih =>
    intro cur
    simp only [windowAccept]
    split
    · right
      rcases ih (cur + count_tokens m.content) with hnil | hle
      · rw [hnil]
        simp only [msgCost, List.map_cons, List.map_nil, List.sum_cons, List.sum_nil]
        omega
      · simp only [msgCost, List.map_cons, List.sum_cons] at hle ⊢
        omega
    · left; rfl

theorem windowAccept_maximal (budget : Nat) :
    ∀ (rev q : List Message) (cur : Nat), q <+: rev →
      cur + msgCost q ≤ budget → q <+: windowAccept budget cur rev := by
  intro rev
  induction rev with
  | nil =>
    intro q cur hq _
    rw [List.prefix_nil.mp hq]
    exact List.nil_prefix
  | cons m rest ih =>
    intro q cur hq hfit
    cases q with
    | nil => exact List.nil_prefix
    | cons x q' =>
      obtain ⟨rfl, hq'⟩ := List.cons_prefix_cons.mp hq
      have hcostq : msgCost (x :: q') = count_tokens x.content + msgCost q' := by
        simp [msgCost]
      have hm : cur + count_tokens x.content ≤ budget := by
        rw [hcostq] at hfit; omega
      simp only [windowAccept, if_pos hm]
      refine List.cons_prefix_cons.mpr ⟨rfl, ih q' (cur + count_tokens x.content) hq' ?_⟩
      rw [hcostq] at hfit
      omega

theorem msgCost_reverse (l : List Message) : msgCost l.reverse = msgCost l := by
  simp [msgCost, List.map_reverse, List.sum_reverse]

theorem manage_context_window_at_suffix (budget : Nat) (history : List Message)
    (rag_context : Option String) :
    manage_context_window_at budget history rag_context <:+ history := by
  unfold manage_context_window_at
  rw [← List.reverse_prefix, List.reverse_reverse]
  exact windowAccept_prefix budget history.reverse (base_tokens rag_context)

theorem manage_context_window_at_maximal (budget : Nat) (history : List Message)
    (rag_context : Option String) (s : List Message) (hs : s <:+ history)
    (hfit : base_tokens rag_context + msgCost s ≤ budget) :
    s <:+ manage_context_window_at budget history rag_context := by
  unfold manage_context_window_at
  rw [← List.reverse_prefix, List.reverse_reverse]
  refine windowAccept_maximal budget history.reverse s.reverse (base_tokens rag_context) ?_ ?_
  · exact List.reverse_prefix.mpr hs
  · rw [msgCost_reverse]; exact hfit

theorem manage_context_window_at_of_fits (budget : Nat) (history : List Message)
    (rag_context : Option String)
    (hfit : base_tokens rag_context + msgCost history ≤ budget) :
    manage_context_window_at budget history rag_context = history := by
  have h1 := manage_context_window_at_suffix budget history rag_context
  have h2 := manage_context_window_at_maximal budget history rag_context history
    List.suffix_rfl hfit
  exact h1.sublist.antisymm h2.sublist

theorem manage_context_window_at_fits_or_empty (budget : Nat) (history : List Message)
    (rag_context : Option String) :
    manage_context_window_at budget history rag_context = [] ∨
      base_tokens rag_context +
        msgCost (manage_context_window_at budget history rag_context) ≤ budget := by
  unfold manage_context_window_at
  rcases windowAccept_fits budget history.reverse (base_tokens rag_context) with hnil | hle
  · left; rw [hnil]; rfl
  · right; rw [msgCost_reverse]; exact hle

theorem windowAccept_of_over (budget cur : Nat) (h : budget < cur) :
    ∀ rev : List Message, windowAccept budget cur rev = [] := by
  intro rev
  cases rev with
  | nil => rfl
  | cons m rest =>
    simp only [windowAccept]
    rw [if_neg (by omega)]

theorem manage_context_window_at_fits (budget : Nat) (history : List Message)
    (rag_context : Option String) (hbase : base_tokens rag_context ≤ budget) :
    base_tokens rag_context +
      msgCost (manage_context_window_at budget history rag_context) ≤ budget := by
  rcases manage_context_window_at_fits_or_empty budget history rag_context with hnil | hle
  · rw [hnil]
    simpa [msgCost] using hbase
  · exact hle

/-! ## Claim C1 -/

/-- C1: for every history, optional grounding text and budget, the context
window manager returns a contiguous suffix of the history (hence in
ascending sequence-number order when the input is) that is the longest
suffix whose cumulative token cost plus the base tokens fits the budget:
the returned suffix itself fits the budget whenever the base tokens do
(and when they do not, the result is empty), and every fitting suffix is
a suffix of the result (maximality); when even the most recent turn
exceeds the remaining budget after base tokens the result is the empty
sequence without error; the source's `manage_context_window` is this
algorithm at budget `CONTEXT_LIMIT`. -/
theorem manage_context_window_longest_suffix (budget : Nat)
    (history : List Message) (rag_context : Option String) :
    manage_context_window history rag_context
        = manage_context_window_at CONTEXT_LIMIT history rag_context
    ∧ manage_context_window_at budget history rag_context <:+ history
    ∧ (∀ s, s <:+ history →
        base_tokens rag_context + msgCost s ≤ budget →
        s <:+ manage_context_window_at budget history rag_context)
    ∧ ((history.map Message.sequence_number).Pairwise (· < ·) →
        ((manage_context_window_at budget history rag_context).map
          Message.sequence_number).Pairwise (· < ·))
    ∧ (∀ init m, history = init ++ [m] →
        budget < base_tokens rag_context + count_tokens m.content →
        manage_context_window_at budget history rag_context = [])
    ∧ (base_tokens rag_context ≤ budget →
        base_tokens rag_context +
          msgCost (manage_context_window_at budget history rag_context) ≤ budget)
    ∧ (budget < base_tokens rag_context →
        manage_context_window_at budget history rag_context = []) := by
  refine ⟨rfl, manage_context_window_at_suffix budget history rag_context,
    fun s hs hfit => manage_context_window_at_maximal budget history rag_context s hs hfit,
    ?_, ?_, manage_context_window_at_fits budget history rag_context, ?_⟩
  · intro hsorted
    exact hsorted.sublist
      (((manage_context_window_at_suffix budget history rag_context).sublist).map
        Message.sequence_number)
  · intro init m hhist hover
    subst hhist
    unfold manage_context_window_at
    have hrev : (init ++ [m]).reverse = m :: init.reverse := by simp
    rw [hrev]
    simp only [windowAccept]
    rw [if_neg (by omega)]
    rfl
  · intro hover
    unfold manage_context_window_at
    rw [windowAccept_of_over budget (base_tokens rag_context) hover history.reverse]
    rfl

set_option maxRecDepth 4000 in
/-- C1 witness: at budget 1000, a one-message history that fits is kept
whole, by the maximality part of the claim theorem. -/
theorem manage_context_window_longest_suffix_witness :
    [({ sequence_number := 1, role := .USER, content := "hello" } : Message)] <:+
      manage_context_window_at 1000
        [{ sequence_number := 1, role := .USER, content := "hello" }] none :=
  (manage_context_window_longest_suffix 1000
      [{ sequence_number := 1, role := .USER, content := "hello" }] none).2.2.1
    [{ sequence_number := 1, role := .USER, content := "hello" }]
    List.suffix_rfl (by decide)

/-! ## Claim C8 -/

/-- C8: the context window manager is idempotent — a history whose total
cost plus base tokens already fits `CONTEXT_LIMIT` is returned unchanged,
and in particular re-windowing any output of `manage_context_window` with
the same grounding text returns it unchanged. -/
theorem manage_context_window_idempotent (history : List Message)
    (rag_context : Option String) :
    (base_tokens rag_context + msgCost history ≤ CONTEXT_LIMIT →
        manage_context_window history rag_context = history)
    ∧ manage_context_window (manage_context_window history rag_context) rag_context
        = manage_context_window history rag_context := by
  constructor
  · intro hfit
    exact manage_context_window_at_of_fits CONTEXT_LIMIT history rag_context hfit
  · rcases manage_context_window_at_fits_or_empty CONTEXT_LIMIT history rag_context
      with hnil | hle
    · unfold manage_context_window
      rw [hnil]
      rfl
    · exact manage_context_window_at_of_fits _ _ _ hle

set_option maxRecDepth 4000 in
/-- C8 witness: a short fitting history is a fixed point of
`manage_context_window`. -/
theorem manage_context_window_idempotent_witness :
    manage_context_window [({ sequence_number := 1, role := .USER, content := "hi" } : Message)]
        none
      = [{ sequence_number := 1, role := .USER, content := "hi" }] :=
  (manage_context_window_idempotent
      [{ sequence_number := 1, role := .USER, content := "hi" }] none).1 (by decide)

/-! ## Claim C2 -/

/-- C2 counterexample: an authentication failure — a `groq.APIError` with
status code 401, caught by the source's `except APIError` branch like
every other `APIError` subclass — occurring on every attempt is retried
with 1s and 2s backoff for 3 attempts before the 503 is raised, rather
than failing immediately without retry as the claim states for
auth/malformed-request errors. -/
theorem api_error_retried_regardless_of_kind :
    (run_attempts (fun _ => .apiError 401) 0 MAX_RETRIES).attemptsMade = 3
    ∧ (run_attempts (fun _ => .apiError 401) 0 MAX_RETRIES).sleeps = [1, 2]
    ∧ (run_attempts (fun _ => .apiError 401) 0 MAX_RETRIES).result
        = .httpError 503 "External Groq service is unavailable after multiple retries." := by
  refine ⟨?_, ?_, ?_⟩ <;> rfl

/-- C2 (amended): the retry loop of `call_llm_api` makes at most 3
attempts; a successful attempt (first, second or third) completes the
call with that attempt's result, after backoff sleeps of 1s (and then
2s) following the earlier failed attempts; any `groq.APIError` —
regardless of status code, so auth and malformed-request errors included
— takes the retried branch, and three such failures surface a 503
service-unavailable error after exactly 3 attempts; only exceptions
outside the `APIError` hierarchy (network/client issues) fail
immediately with no retry and no sleep.  The loop's trace is what
`call_llm_api` returns alongside the payload. -/
theorem call_llm_api_retry_policy (api : Nat → AttemptOutcome) :
    (∀ history rag_context,
        (call_llm_api api history rag_context).2 = run_attempts api 0 MAX_RETRIES)
    ∧ (run_attempts api 0 MAX_RETRIES).attemptsMade ≤ MAX_RETRIES
    ∧ (∀ c t, api 0 = .success c t →
        run_attempts api 0 MAX_RETRIES = ⟨.ok c LLM_MODEL t, [], 1⟩)
    ∧ (∀ sc c t, api 0 = .apiError sc → api 1 = .success c t →
        run_attempts api 0 MAX_RETRIES = ⟨.ok c LLM_MODEL t, [1], 2⟩)
    ∧ (∀ sc₀ sc₁ c t, api 0 = .apiError sc₀ → api 1 = .apiError sc₁ →
        api 2 = .success c t →
        run_attempts api 0 MAX_RETRIES = ⟨.ok c LLM_MODEL t, [1, 2], 3⟩)
    ∧ (∀ sc₀ sc₁ sc₂, api 0 = .apiError sc₀ → api 1 = .apiError sc₁ →
        api 2 = .apiError sc₂ →
        run_attempts api 0 MAX_RETRIES =
          ⟨.httpError 503 "External Groq service is unavailable after multiple retries.",
            [1, 2], 3⟩)
    ∧ (api 0 = .otherError →
        run_attempts api 0 MAX_RETRIES =
          ⟨.httpError 503 "External Groq service failed due to an unknown error.", [], 1⟩) := by
  refine ⟨fun _ _ => rfl, ?_, ?_, ?_, ?_, ?_, ?_⟩
  · show (run_attempts api 0 3).attemptsMade ≤ 3
    rcases h0 : api 0 with c0 | _ | _ | _ <;>
      rcases h1 : api 1 with c1 | _ | _ | _ <;>
        rcases h2 : api 2 with c2 | _ | _ | _ <;>
          simp [run_attempts, h0, h1, h2]
  · intro c t h0
    simp [run_attempts, MAX_RETRIES, h0]
  · intro sc c t h0 h1
    simp [run_attempts, MAX_RETRIES, h0, h1]
  · intro sc₀ sc₁ c t h0 h1 h2
    simp [run_attempts, MAX_RETRIES, h0, h1, h2]
  · intro sc₀ sc₁ sc₂ h0 h1 h2
    simp [run_attempts, MAX_RETRIES, h0, h1, h2]
  · intro h0
    simp [run_attempts, MAX_RETRIES, h0]

/-- C2 witness: a provider failing once with a rate-limit `APIError` and
succeeding on the second attempt yields that attempt's result after a
single 1-second backoff, in 2 attempts. -/
theorem call_llm_api_retry_policy_witness :
    run_attempts (fun i => if i = 0 then .apiError 429 else .success "fine" 7) 0 MAX_RETRIES
      = ⟨.ok "fine" LLM_MODEL 7, [1], 2⟩ :=
  (call_llm_api_retry_policy
      (fun i => if i = 0 then .apiError 429 else .success "fine" 7)).2.2.2.1 429 "fine" 7
    (by decide) (by decide)

/-! ## Claim C9 -/

theorem seq_le_fold (messages : List Message) :
    ∀ m ∈ messages, m.sequence_number ≤
      messages.foldr (fun m acc => max m.sequence_number acc) 0 := by
  induction messages with
  | nil => intro m hm; cases hm
  | cons b t ih =>
    intro m hm
    rcases List.mem_cons.mp hm with rfl | hm'
    · exact le_max_left _ _
    · exact le_trans (ih m hm') (le_max_right _ _)

/-- C9: `_get_next_sequence_number` returns 1 for an empty conversation
and otherwise one more than the maximum existing sequence number (so it
exceeds every existing one); appending a turn with it preserves strictly
increasing — hence unique — sequence numbers, and the first appended turn
gets sequence number 1. -/
theorem sequence_number_assignment (messages : List Message) (content : String)
    (hinc : (messages.map Message.sequence_number).Pairwise (· < ·)) :
    _get_next_sequence_number [] = 1
    ∧ (∀ m ∈ messages, m.sequence_number < _get_next_sequence_number messages)
    ∧ ((add_user_message messages content).map Message.sequence_number).Pairwise (· < ·)
    ∧ ((add_user_message messages content).map Message.sequence_number).Nodup
    ∧ (add_user_message [] content).map Message.sequence_number = [1] := by
  have hlt : ∀ m ∈ messages, m.sequence_number < _get_next_sequence_number messages := by
    intro m hm
    have := seq_le_fold messages m hm
    unfold _get_next_sequence_number
    omega
  have hpw : ((add_user_message messages content).map
      Message.sequence_number).Pairwise (· < ·) := by
    unfold add_user_message
    rw [List.map_append, List.pairwise_append]
    refine ⟨hinc, List.pairwise_singleton _ _, ?_⟩
    intro a ha b hb
    simp only [List.map_cons, List.map_nil, List.mem_singleton] at hb
    obtain ⟨m, hm, rfl⟩ := List.mem_map.mp ha
    rw [hb]
    exact hlt m hm
  exact ⟨rfl, hlt, hpw, hpw.imp Nat.ne_of_lt, rfl⟩

/-- C9 witness: appending to a one-turn conversation keeps the sequence
numbers strictly increasing and unique. -/
theorem sequence_number_assignment_witness :
    _get_next_sequence_number [] = 1
    ∧ (∀ m ∈ [({ sequence_number := 1, role := .USER, content := "a" } : Message)],
        m.sequence_number < _get_next_sequence_number
          [({ sequence_number := 1, role := .USER, content := "a" } : Message)])
    ∧ ((add_user_message [({ sequence_number := 1, role := .USER, content := "a" } : Message)]
          "b").map Message.sequence_number).Pairwise (· < ·)
    ∧ ((add_user_message [({ sequence_number := 1, role := .USER, content := "a" } : Message)]
          "b").map Message.sequence_number).Nodup
    ∧ (add_user_message [] "b").map Message.sequence_number = [1] :=
  sequence_number_assignment
    [({ sequence_number := 1, role := .USER, content := "a" } : Message)] "b" (by decide)

/-! ## Claim C3 -/

/-- C3: when the model call fails with retryable errors on all
`MAX_RETRIES` attempts, `process_user_message_and_get_reply` aborts with
the 503 error, leaving exactly the just-appended user turn persisted, no
assistant reply, and the conversation's token count unchanged. -/
theorem process_model_failure_partial_state (env : RagEnv) (api : Nat → AttemptOutcome)
    (conversation : Conversation) (content : String) (rc : Option String)
    (hfail : ∀ i, i < MAX_RETRIES → ∃ sc, api i = .apiError sc) :
    (process_user_message_and_get_reply env api conversation content rc).conversation.messages
        = conversation.messages ++
          [{ sequence_number := _get_next_sequence_number conversation.messages,
             role := .USER, content := content }]
    ∧ (process_user_message_and_get_reply env api conversation content rc).reply = none
    ∧ (process_user_message_and_get_reply env api conversation
        content rc).conversation.token_count = conversation.token_count
    ∧ (process_user_message_and_get_reply env api conversation content rc).http_status
        = some 503 := by
  obtain ⟨sc₀, h0⟩ := hfail 0 (by decide)
  obtain ⟨sc₁, h1⟩ := hfail 1 (by decide)
  obtain ⟨sc₂, h2⟩ := hfail 2 (by decide)
  have hrun : run_attempts api 0 MAX_RETRIES =
      ⟨.httpError 503 "External Groq service is unavailable after multiple retries.",
        [1, 2], 3⟩ := by
    simp [run_attempts, MAX_RETRIES, h0, h1, h2]
  simp [process_user_message_and_get_reply, call_llm_api, hrun, add_user_message]

/-- C3 witness: a concrete turn whose three model attempts all fail
leaves no reply and a 503 status. -/
theorem process_model_failure_partial_state_witness :
    (process_user_message_and_get_reply
        { literal_eval := fun _ => none, encode := fun _ => [],
          cos_sim := fun _ _ => 0, links := [], chunksDb := [] }
        (fun _ => .apiError 503) ⟨.OPEN_CHAT, [], 0⟩ "hi" none).reply = none
    ∧ (process_user_message_and_get_reply
        { literal_eval := fun _ => none, encode := fun _ => [],
          cos_sim := fun _ _ => 0, links := [], chunksDb := [] }
        (fun _ => .apiError 503) ⟨.OPEN_CHAT, [], 0⟩ "hi" none).http_status = some 503 :=
  ⟨(process_model_failure_partial_state _ _ _ _ _ (fun _ _ => ⟨503, rfl⟩)).2.1,
   (process_model_failure_partial_state _ _ _ _ _ (fun _ _ => ⟨503, rfl⟩)).2.2.2⟩

/-! ## Claim C10 -/

/-- C10: the `rag_context` parameter of
`process_user_message_and_get_reply` has no effect: the function
unconditionally overwrites it with `None` before use and recomputes the
context internally, so two invocations differing only in that argument
produce identical outcomes — same final conversation state (messages and
token count), same payload sent to the model, same reply and same status. -/
theorem process_rag_context_parameter_no_effect (env : RagEnv)
    (api : Nat → AttemptOutcome) (conversation : Conversation) (content : String)
    (rc₁ rc₂ : Option String) :
    process_user_message_and_get_reply env api conversation content rc₁
      = process_user_message_and_get_reply env api conversation content rc₂ := rfl

/-! ## Lemmas about the chunker -/

theorem chunk_go_eq_chunksFrom (text : List Char) :
    ∀ (fuel i : Nat), text.length - i < fuel →
      chunk_go text 512 50 i fuel = some (chunksFrom text i) := by
  intro fuel
  induction fuel with
  | zero => intro i h; exact absurd h (Nat.not_lt_zero _)
  | succ f ih =>
    intro i h
    by_cases hi : i < text.length
    · by_cases hend : text.length ≤ i + 512
      · rw [chunksFrom, dif_pos hi, if_pos hend]
        simp only [chunk_go, if_pos hi, if_pos hend]
      · have e : i + (512 - 50) = i + 462 := by norm_num
        rw [chunksFrom, dif_pos hi, if_neg hend]
        simp only [chunk_go, if_pos hi, if_neg hend, e]
        rw [ih (i + 462) (by omega)]
    · rw [chunksFrom, dif_neg hi]
      simp only [chunk_go, if_neg hi]

theorem chunksFrom_length (text : List Char) :
    ∀ (n i : Nat), text.length - i ≤ n → i < text.length →
      (chunksFrom text i).length = 1 + (text.length - i - 51) / 462 := by
  intro n
  induction n with
  | zero => intro i hn hi; omega
  | succ k ih =>
    intro i hn hi
    rw [chunksFrom, dif_pos hi]
    by_cases hend : text.length ≤ i + 512
    · rw [if_pos hend]
      simp only [List.length_cons, List.length_nil]
      rw [Nat.div_eq_of_lt (by omega)]
    · rw [if_neg hend]
      simp only [List.length_cons]
      rw [ih (i + 462) (by omega) (by omega)]
      have e : text.length - i - 51 = (text.length - (i + 462) - 51) + 462 := by omega
      rw [e, Nat.add_div_right _ (by norm_num)]
      omega

theorem chunksFrom_map (text : List Char) :
    ∀ (n i : Nat), text.length - i ≤ n →
      chunksFrom text i = (List.range (chunksFrom text i).length).map
        (fun j => (text.drop (i + 462 * j)).take 512) := by
  intro n
  induction n with
  | zero =>
    intro i hn
    rw [chunksFrom, dif_neg (by omega)]
    rfl
  | succ k ih =>
    intro i hn
    by_cases hi : i < text.length
    · rw [chunksFrom, dif_pos hi]
      by_cases hend : text.length ≤ i + 512
      · rw [if_pos hend]
        simp [List.range_succ]
      · rw [if_neg hend]
        simp only [List.length_cons, List.range_succ_eq_map, List.map_cons, List.map_map,
          Nat.mul_zero, Nat.add_zero]
        refine congrArg (List.cons _) ?_
        rw [ih (i + 462) (by omega)]
        simp only [List.length_map, List.length_range]
        apply List.map_congr_left
        intro j _
        simp only [Function.comp_apply]
        have e : (i + 462) + 462 * j = i + 462 * (j + 1) := by ring
        rw [e]
    · rw [chunksFrom, dif_neg hi]
      rfl

theorem chunksFrom_last (text : List Char) :
    ∀ (n i : Nat), text.length - i ≤ n → i < text.length →
      ∃ ws w, chunksFrom text i = ws ++ [w] ∧ w <:+ text ∧ w ≠ [] := by
  intro n
  induction n with
  | zero => intro i hn hi; omega
  | succ k ih =>
    intro i hn hi
    rw [chunksFrom, dif_pos hi]
    by_cases hend : text.length ≤ i + 512
    · rw [if_pos hend]
      refine ⟨[], (text.drop i).take 512, rfl, ?_, ?_⟩
      · rw [List.take_of_length_le (by rw [List.length_drop]; omega)]
        exact List.drop_suffix i text
      · intro hcon
        have := congrArg List.length hcon
        simp only [List.length_take, List.length_drop, List.length_nil] at this
        omega
    · rw [if_neg hend]
      obtain ⟨ws, w, hw, hsuf, hne⟩ := ih (i + 462) (by omega) (by omega)
      exact ⟨(text.drop i).take 512 :: ws, w, by rw [hw, List.cons_append], hsuf, hne⟩

/-! ## Claim C4 -/

/-- C4: on the default configuration (`chunk_size = 512`,
`chunk_overlap = 50`), the chunker terminates and produces exactly the
windows obtained by advancing the start offset by `512 - 50 = 462` each
step (window `j` is `text[462*j : 462*j + 512]`), the window count is the
fixed-advance value `1 + (L - 51) / 462` for text of length `L > 0`
(final partial window included), the last window is a non-empty suffix of
the text (it reaches the text's end), and empty text yields the empty
sequence. -/
theorem chunk_text_fixed_advance (text : List Char) (h : text ≠ []) :
    _chunk_text [] 512 50 = some []
    ∧ (∃ l, _chunk_text text 512 50 = some l
        ∧ l.length = 1 + (text.length - 51) / 462
        ∧ l = (List.range l.length).map (fun j => (text.drop (462 * j)).take 512)
        ∧ ∃ ws w, l = ws ++ [w] ∧ w <:+ text ∧ w ≠ []) := by
  have hlen : 0 < text.length := List.length_pos.mpr h
  have hgo : _chunk_text text 512 50 = some (chunksFrom text 0) :=
    chunk_go_eq_chunksFrom text (text.length + 1) 0 (by omega)
  refine ⟨rfl, chunksFrom text 0, hgo, ?_, ?_, ?_⟩
  · simpa using chunksFrom_length text text.length 0 (by omega) hlen
  · simpa using chunksFrom_map text text.length 0 (by omega)
  · exact chunksFrom_last text text.length 0 (by omega) hlen

set_option maxRecDepth 4000 in
/-- C4 witness: the three-character text `"abc"` produces one window,
which is the whole text. -/
theorem chunk_text_fixed_advance_witness :
    _chunk_text [] 512 50 = some []
    ∧ (∃ l, _chunk_text ['a', 'b', 'c'] 512 50 = some l
        ∧ l.length = 1 + (List.length ['a', 'b', 'c'] - 51) / 462
        ∧ l = (List.range l.length).map
            (fun j => ((['a', 'b', 'c'] : List Char).drop (462 * j)).take 512)
        ∧ ∃ ws w, l = ws ++ [w] ∧ w <:+ ['a', 'b', 'c'] ∧ w ≠ []) :=
  chunk_text_fixed_advance ['a', 'b', 'c'] (by decide)

/-! ## Claim C5 -/

/-- C5: the source does not validate the chunker configuration: with
`chunk_overlap = chunk_size = 512` on a 600-character text the loop's
advance is zero and it never terminates — `chunk_go` returns `none` on
every fuel, so `_chunk_text` diverges instead of rejecting the
configuration with an `InvalidConfiguration` error as the claim
requires. -/
theorem chunk_text_degenerate_overlap_diverges :
    (∀ fuel, chunk_go (List.replicate 600 'x') 512 512 0 fuel = none)
    ∧ _chunk_text (List.replicate 600 'x') 512 512 = none := by
  have hmain : ∀ fuel, chunk_go (List.replicate 600 'x') 512 512 0 fuel = none := by
    intro fuel
    induction fuel with
    | zero => rfl
    | succ f ih =>
      have hlen : (List.replicate 600 'x').length = 600 := List.length_replicate _ _
      simp only [chunk_go, hlen]
      rw [if_pos (by norm_num), if_neg (by norm_num)]
      have e : 0 + (512 - 512) = 0 := by norm_num
      rw [e, ih]
  exact ⟨hmain, hmain _⟩

/-! ## Lemmas about the retrieval scorer's stable descending sort -/

theorem insertDesc_perm (x : ℚ × String) (l : List (ℚ × String)) :
    List.Perm (insertDesc x l) (x :: l) := by
  induction l with
  | nil => exact List.Perm.refl _
  | cons y ys ih =>
    by_cases hxy : x.1 ≥ y.1
    · rw [insertDesc, if_pos hxy]
    · rw [insertDesc, if_neg hxy]
      exact (ih.cons y).trans (List.Perm.swap x y ys)

theorem insertDesc_splits (x : ℚ × String) (l : List (ℚ × String)) :
    ∃ l₁ l₂, l = l₁ ++ l₂ ∧ insertDesc x l = l₁ ++ x :: l₂ ∧ ∀ y ∈ l₁, x.1 < y.1 := by
  induction l with
  | nil => exact ⟨[], [], rfl, rfl, by simp⟩
  | cons y ys ih =>
    by_cases hxy : x.1 ≥ y.1
    · exact ⟨[], y :: ys, rfl, by rw [insertDesc, if_pos hxy]; rfl, by simp⟩
    · obtain ⟨l₁, l₂, he, hi, hgt⟩ := ih
      refine ⟨y :: l₁, l₂, by rw [List.cons_append, ← he], ?_, ?_⟩
      · rw [insertDesc, if_neg hxy, hi, List.cons_append]
      · intro z hz
        rcases List.mem_cons.mp hz with rfl | hz'
        · exact lt_of_not_ge hxy
        · exact hgt z hz'

theorem insertDesc_sorted (x : ℚ × String) (l : List (ℚ × String))
    (hl : l.Pairwise (fun a b => b.1 ≤ a.1)) :
    (insertDesc x l).Pairwise (fun a b => b.1 ≤ a.1) := by
  induction l with
  | nil => simp [insertDesc]
  | cons y ys ih =>
    rw [List.pairwise_cons] at hl
    obtain ⟨hy, hys⟩ := hl
    by_cases hxy : x.1 ≥ y.1
    · rw [insertDesc, if_pos hxy, List.pairwise_cons]
      refine ⟨?_, List.pairwise_cons.mpr ⟨hy, hys⟩⟩
      intro z hz
      rcases List.mem_cons.mp hz with rfl | hz'
      · exact hxy
      · exact le_trans (hy z hz') hxy
    · rw [insertDesc, if_neg hxy, List.pairwise_cons]
      refine ⟨?_, ih hys⟩
      intro z hz
      rcases List.mem_cons.mp ((insertDesc_perm x ys).mem_iff.mp hz) with rfl | hz'
      · exact le_of_lt (lt_of_not_ge hxy)
      · exact hy z hz'

theorem sortByScoreDesc_perm (l : List (ℚ × String)) : List.Perm (sortByScoreDesc l) l := by
  induction l with
  | nil => exact List.Perm.refl _
  | cons x xs ih =>
    exact (insertDesc_perm x (sortByScoreDesc xs)).trans (ih.cons x)

theorem sortByScoreDesc_sorted (l : List (ℚ × String)) :
    (sortByScoreDesc l).Pairwise (fun a b => b.1 ≤ a.1) := by
  induction l with
  | nil => simp [sortByScoreDesc]
  | cons x xs ih => exact insertDesc_sorted x _ ih

theorem sortByScoreDesc_stable (l : List (ℚ × String)) (q : ℚ) :
    (sortByScoreDesc l).filter (fun p => decide (p.1 = q))
      = l.filter (fun p => decide (p.1 = q)) := by
  induction l with
  | nil => rfl
  | cons x xs ih =>
    show (insertDesc x (sortByScoreDesc xs)).filter _ = _
    obtain ⟨l₁, l₂, he, hi, hgt⟩ := insertDesc_splits x (sortByScoreDesc xs)
    have hxs : xs.filter (fun p => decide (p.1 = q))
        = l₁.filter (fun p => decide (p.1 = q)) ++ l₂.filter (fun p => decide (p.1 = q)) := by
      rw [← List.filter_append, ← he, ih]
    rw [hi, List.filter_append, List.filter_cons]
    by_cases hq : x.1 = q
    · have hl₁ : l₁.filter (fun p => decide (p.1 = q)) = [] := by
        rw [List.filter_eq_nil_iff]
        intro a ha
        simp only [decide_eq_true_eq]
        exact ne_of_gt (hq ▸ hgt a ha)
      rw [if_pos (by simpa using hq), hl₁, List.filter_cons, if_pos (by simpa using hq),
        hxs, hl₁]
      simp
    · rw [if_neg (by simpa using hq), List.filter_cons, if_neg (by simpa using hq), hxs]

/-! ## Claim C6 -/

set_option maxRecDepth 8000 in
/-- C6 counterexample: on a concrete two-fragment candidate set the
retrieval output joins the selected fragments' texts with a blank line
(`"\n\n"`), not with a single newline as the claim states — the result
differs from the newline-joined concatenation of the selected texts. -/
theorem retrieve_context_not_newline_joined :
    retrieve_context_for_query tieEnv "q" = some "a\n\nb"
    ∧ retrieve_context_for_query tieEnv "q"
        ≠ some (String.intercalate "\n" ["a", "b"]) := by
  constructor <;> decide

/-- C6 (amended): for every query and candidate set with linked documents
and at least one candidate chunk, the retrieval scorer ranks the
parseable candidates by descending similarity score (the sorted scan is
a permutation of the scored scan, pairwise ordered by descending score),
breaks ties by original scan order (the sort is stable: filtering any
fixed score preserves scan order), selects exactly the top 5 (all, when
fewer than 5), and returns the selected fragments' texts in
descending-score order joined with a blank line (`"\n\n"`), normalized
to `None` when the join strips to nothing. -/
theorem retrieve_context_ranking (env : RagEnv) (user_query : String)
    (hl : env.links.isEmpty = false)
    (hc : (chunksOf env).isEmpty = false) :
    List.Perm (sortByScoreDesc (scoredOf env user_query)) (scoredOf env user_query)
    ∧ (sortByScoreDesc (scoredOf env user_query)).Pairwise (fun a b => b.1 ≤ a.1)
    ∧ (∀ q, (sortByScoreDesc (scoredOf env user_query)).filter (fun p => decide (p.1 = q))
        = (scoredOf env user_query).filter (fun p => decide (p.1 = q)))
    ∧ ((sortByScoreDesc (scoredOf env user_query)).take 5).length
        = min 5 (scoredOf env user_query).length
    ∧ joinedContext env user_query
        = String.intercalate "\n\n"
            (((sortByScoreDesc (scoredOf env user_query)).take 5).map Prod.snd)
    ∧ retrieve_context_for_query env user_query
        = (if (joinedContext env user_query).data.all Char.isWhitespace then none
           else some (joinedContext env user_query)) := by
  refine ⟨sortByScoreDesc_perm _, sortByScoreDesc_sorted _,
    fun q => sortByScoreDesc_stable _ q, ?_, rfl, ?_⟩
  · rw [List.length_take, (sortByScoreDesc_perm _).length_eq]
  · simp [retrieve_context_for_query, hl, hc]

set_option maxRecDepth 8000 in
/-- C6 witness: on the concrete tied environment the amended claim
evaluates to the blank-line-joined context with the earlier-scanned
fragment first. -/
theorem retrieve_context_ranking_witness :
    retrieve_context_for_query tieEnv "q" = some "a\n\nb" :=
  (retrieve_context_ranking tieEnv "q" rfl rfl).2.2.2.2.2.trans (by decide)

/-! ## Claim C7 -/

/-- C7: retrieval degrades gracefully rather than failing the turn:
without linked documents or without candidate chunks the result is
`None` (the embedding is a total function — no error); a candidate whose
stored embedding fails to parse is skipped without affecting the ranking
of the remaining candidates; and a returned context is never all
whitespace (an all-whitespace join is normalized to `None`). -/
theorem retrieval_graceful_degradation (env : RagEnv) (user_query : String) :
    (env.links = [] → retrieve_context_for_query env user_query = none)
    ∧ (chunksOf env = [] → retrieve_context_for_query env user_query = none)
    ∧ (∀ pre c post, env.literal_eval c.embedding = none →
        retrieve_context_for_query { env with chunksDb := pre ++ c :: post } user_query
          = retrieve_context_for_query { env with chunksDb := pre ++ post } user_query)
    ∧ (∀ s, retrieve_context_for_query env user_query = some s →
        s.data.all Char.isWhitespace = false) := by
  refine ⟨?_, ?_, ?_, ?_⟩
  · intro h
    simp [retrieve_context_for_query, h]
  · intro h
    simp [retrieve_context_for_query, h]
  · intro pre c post hparse
    have hsc : scoredOf { env with chunksDb := pre ++ c :: post } user_query
        = scoredOf { env with chunksDb := pre ++ post } user_query := by
      by_cases hdoc : c.document_id ∈ env.links
      · simp [scoredOf, chunksOf, List.filter_append, List.filter_cons, hdoc,
          List.filterMap_append, List.filterMap_cons, hparse]
      · simp [scoredOf, chunksOf, List.filter_append, List.filter_cons, hdoc,
          List.filterMap_append]
    have hjoin : joinedContext { env with chunksDb := pre ++ c :: post } user_query
        = joinedContext { env with chunksDb := pre ++ post } user_query := by
      rw [joinedContext, joinedContext, hsc]
    by_cases h1 : env.links.isEmpty
    · simp [retrieve_context_for_query, h1]
    · by_cases hdoc : c.document_id ∈ env.links
      · have hne : (chunksOf { env with chunksDb := pre ++ c :: post }).isEmpty = false := by
          simp [chunksOf, List.filter_append, List.filter_cons, hdoc]
        by_cases h2 : (chunksOf { env with chunksDb := pre ++ post }).isEmpty
        · have hnil : chunksOf { env with chunksDb := pre ++ post } = [] :=
            List.isEmpty_iff.mp h2
          have hsc2 : scoredOf { env with chunksDb := pre ++ post } user_query = [] := by
            rw [scoredOf, hnil]
            rfl
          have hjoin2 : joinedContext { env with chunksDb := pre ++ post } user_query = "" := by
            rw [joinedContext, hsc2]
            rfl
          simp [retrieve_context_for_query, h1, hne, h2, hjoin, hjoin2]
        · simp [retrieve_context_for_query, h1, hne, h2, hjoin]
      · have hch : chunksOf { env with chunksDb := pre ++ c :: post }
            = chunksOf { env with chunksDb := pre ++ post } := by
          simp [chunksOf, List.filter_append, List.filter_cons, hdoc]
        simp [retrieve_context_for_query, h1, hch, hjoin]
  · intro s hs
    by_cases h1 : env.links.isEmpty
    · simp [retrieve_context_for_query, h1] at hs
    · by_cases h2 : (chunksOf env).isEmpty
      · simp [retrieve_context_for_query, h1, h2] at hs
      · by_cases h3 : (joinedContext env user_query).data.all Char.isWhitespace
        · simp [retrieve_context_for_query, h1, h2, h3] at hs
        · simp only [retrieve_context_for_query, h1, h2, h3, if_false,
            Bool.false_eq_true, if_neg, Option.some.injEq] at hs
          rw [← hs]
          exact Bool.eq_false_iff.mpr h3

/-- C7 witness: an environment with no linked documents yields no context
rather than an error. -/
theorem retrieval_graceful_degradation_witness :
    retrieve_context_for_query
        { literal_eval := fun _ => none, encode := fun _ => [],
          cos_sim := fun _ _ => 0, links := [], chunksDb := [] } "q" = none :=
  (retrieval_graceful_degradation
      { literal_eval := fun _ => none, encode := fun _ => [],
        cos_sim := fun _ _ => 0, links := [], chunksDb := [] } "q").1 rfl

end Bot
